import Mathlib

/-!
Verification of the audiothek-downloader repository: a shallow embedding of
the audio URL prioritization, the audio file reconciliation state machine,
the quality deduplication, the pagination loop, and the resource resolver,
with theorems settling the specification claims.

All definitions are translated from the Python sources in src/src/audiothek/
(downloader.py, client.py, file_utils.py, parallel.py).
-/

namespace Audiothek

/-! ## URL candidate selection (downloader.py lines 707-769)

`_deduplicate_preserve_order`, `_merge_url_lists`,
`_build_audio_url_candidates` and `_prioritize_audio_urls`.
The network HEAD probe `client._get_content_length` is modelled as a
function `sz : String -> Option Nat` (deterministic remote sizes). -/

/-- One fold step of the seen-set deduplication loop: append the url when it
was not dumped into the accumulator yet.  The Python code keeps a `seen` set
next to the output list; both always hold the same urls, so membership in the
accumulator is the faithful test. -/
def dedupStep (acc : List String) (u : String) : List String :=
  if u ∈ acc then acc else acc ++ [u]

/-- Run the deduplication loop over `l` starting from accumulator `acc`. -/
def dedupAppend (acc : List String) (l : List String) : List String :=
  l.foldl dedupStep acc

/-- `_deduplicate_preserve_order` (downloader.py 707-718). -/
def deduplicate_preserve_order (urls : List String) : List String :=
  dedupAppend [] urls

/-- `_merge_url_lists` (downloader.py 761-769), at its two-list use sites:
iterate the lists in order with one shared output, skipping urls already
placed. -/
def merge_url_lists (downloadUrls streamingUrls : List String) : List String :=
  dedupAppend [] (downloadUrls ++ streamingUrls)

/-- URL class tag used when building candidates: download urls are
enumerated before streaming urls. -/
inductive UrlClass where
  | download
  | streaming
deriving DecidableEq, Repr

/-- A sized candidate `(class, url, content_length)` as built by
`_build_audio_url_candidates`. -/
abbrev Candidate := UrlClass × String × Nat

/-- The url component of a candidate. -/
def candidateUrl (c : Candidate) : String := c.2.1

/-- The content-length component of a candidate. -/
def candidateSize (c : Candidate) : Nat := c.2.2

/-- `_build_audio_url_candidates` (downloader.py 720-734): probe every url of
both classes, keeping only those whose content length could be determined,
download class first. -/
def build_audio_url_candidates (sz : String → Option Nat)
    (downloadUrls streamingUrls : List String) : List Candidate :=
  (downloadUrls.filterMap fun u => (sz u).map fun n => (UrlClass.download, u, n)) ++
  (streamingUrls.filterMap fun u => (sz u).map fun n => (UrlClass.streaming, u, n))

/-- Stable insertion of a candidate into a list already sorted by size
descending: the new element passes over strictly larger elements and lands
before the first element whose size is not larger, which keeps earlier
elements of equal size in front.  Together with `sortDesc` this models the
stable `sorted(candidates, key=size, reverse=True)` call in
`_prioritize_audio_urls` (downloader.py 746). -/
def insertDesc (c : Candidate) : List Candidate → List Candidate
  | [] => [c]
  | x :: xs => if candidateSize c < candidateSize x then x :: insertDesc c xs else c :: x :: xs

/-- Stable sort by content length descending (model of Python `sorted` with
`reverse=True`). -/
def sortDesc : List Candidate → List Candidate
  | [] => []
  | c :: cs => insertDesc c (sortDesc cs)

/-- `_prioritize_audio_urls` (downloader.py 736-759): with no sized
candidate the merged lists are returned; otherwise the urls of the sorted
candidates are placed first (preferred url in front, deduplicated) and all
remaining merged urls are appended, deduplicated against the urls already
placed. -/
def prioritize_audio_urls (downloadUrls streamingUrls : List String)
    (urlCandidates : List Candidate) : List String :=
  if urlCandidates.isEmpty then merge_url_lists downloadUrls streamingUrls
  else
    let sorted := sortDesc urlCandidates
    let priorityUrls := dedupAppend ((sorted.take 1).map candidateUrl)
      ((sorted.drop 1).map candidateUrl)
    dedupAppend priorityUrls (merge_url_lists downloadUrls streamingUrls)

/-- Spec-side definition for claim C3, written from the specification words:
the sized candidates sorted by content length descending (stable, download
class enumerated first) are placed first, followed by every url of the
merged caller lists not already placed, in the callers original order. -/
def prioritizeSpecC3 (sz : String → Option Nat)
    (downloadUrls streamingUrls : List String) : List String :=
  let placed := deduplicate_preserve_order
    ((sortDesc (build_audio_url_candidates sz downloadUrls streamingUrls)).map candidateUrl)
  placed ++ (merge_url_lists downloadUrls streamingUrls).filter (fun u => decide (u ∉ placed))

/-! ### Lemmas about deduplication -/

theorem mem_dedupAppend (acc l : List String) (u : String) :
    u ∈ dedupAppend acc l ↔ u ∈ acc ∨ u ∈ l := by
  induction l generalizing acc with
  | nil => simp [dedupAppend]
  | cons a as ih =>
    simp only [dedupAppend, List.foldl_cons] at *
    by_cases ha : a ∈ acc
    · simp [dedupStep, ha, ih, List.mem_cons]
      constructor
      · rintro (h | h)
        · exact Or.inl h
        · exact Or.inr (Or.inr h)
      · rintro (h | h | h)
        · exact Or.inl h
        · exact Or.inl (h ▸ ha)
        · exact Or.inr h
    · simp [dedupStep, ha, ih, List.mem_cons, List.mem_append]
      tauto

theorem nodup_dedupAppend (acc l : List String) (h : acc.Nodup) :
    (dedupAppend acc l).Nodup := by
  induction l generalizing acc with
  | nil => simpa [dedupAppend]
  | cons a as ih =>
    simp only [dedupAppend, List.foldl_cons]
    by_cases ha : a ∈ acc
    · rw [show dedupStep acc a = acc from by simp [dedupStep, ha]]
      exact ih acc h
    · rw [show dedupStep acc a = acc ++ [a] from by simp [dedupStep, ha]]
      exact ih (acc ++ [a])
        (List.Nodup.append h (List.nodup_singleton a) (by simpa using ha))

theorem dedupAppend_eq_filter (acc l : List String) (h : l.Nodup) :
    dedupAppend acc l = acc ++ l.filter (fun u => decide (u ∉ acc)) := by
  induction l generalizing acc with
  | nil => simp [dedupAppend]
  | cons a as ih =>
    simp only [dedupAppend, List.foldl_cons] at *
    have has : as.Nodup := (List.nodup_cons.mp h).2
    have hna : a ∉ as := (List.nodup_cons.mp h).1
    by_cases ha : a ∈ acc
    · rw [show dedupStep acc a = acc from by simp [dedupStep, ha]]
      rw [ih acc has]
      simp [List.filter_cons, ha]
    · rw [show dedupStep acc a = acc ++ [a] from by simp [dedupStep, ha]]
      rw [ih (acc ++ [a]) has]
      have : as.filter (fun u => decide (u ∉ acc ++ [a])) =
          as.filter (fun u => decide (u ∉ acc)) := by
        apply List.filter_congr
        intro x hx
        have hxa : x ≠ a := fun hxeq => hna (hxeq ▸ hx)
        simp [List.mem_append, hxa]
      rw [this, List.filter_cons]
      simp [ha, List.append_assoc]

/-! ### Lemmas about the stable descending sort -/

theorem insertDesc_perm (c : Candidate) (l : List Candidate) :
    (insertDesc c l).Perm (c :: l) := by
  induction l with
  | nil => simp [insertDesc]
  | cons x xs ih =>
    simp only [insertDesc]
    by_cases h : candidateSize c < candidateSize x
    · simp only [if_pos h]
      exact (ih.cons x).trans (List.Perm.swap c x xs)
    · simp [if_neg h]

theorem sortDesc_perm (l : List Candidate) : (sortDesc l).Perm l := by
  induction l with
  | nil => simp [sortDesc]
  | cons c cs ih =>
    exact (insertDesc_perm c (sortDesc cs)).trans (ih.cons c)

theorem insertDesc_sorted (c : Candidate) (l : List Candidate)
    (hl : l.Sorted (fun a b => candidateSize b ≤ candidateSize a)) :
    (insertDesc c l).Sorted (fun a b => candidateSize b ≤ candidateSize a) := by
  induction l with
  | nil => simp [insertDesc]
  | cons x xs ih =>
    rw [List.sorted_cons] at hl
    simp only [insertDesc]
    by_cases h : candidateSize c < candidateSize x
    · rw [if_pos h, List.sorted_cons]
      refine ⟨?_, ih hl.2⟩
      intro b hb
      have hmem : b = c ∨ b ∈ xs := by
        have := (insertDesc_perm c xs).mem_iff.mp hb
        simpa using this
      rcases hmem with rfl | hbxs
      · exact Nat.le_of_lt h
      · exact hl.1 b hbxs
    · rw [if_neg h, List.sorted_cons]
      refine ⟨?_, List.sorted_cons.mpr hl⟩
      intro b hb
      have hxc : candidateSize x ≤ candidateSize c := Nat.le_of_not_lt h
      rcases List.mem_cons.mp hb with rfl | hbxs
      · exact hxc
      · exact Nat.le_trans (hl.1 b hbxs) hxc

theorem sortDesc_sorted (l : List Candidate) :
    (sortDesc l).Sorted (fun a b => candidateSize b ≤ candidateSize a) := by
  induction l with
  | nil => simp [sortDesc]
  | cons c cs ih => exact insertDesc_sorted c (sortDesc cs) ih

/-- Stability of the insertion step: within one size class, the inserted
candidate lands in front of the elements already present, and all other
size classes are untouched. -/
theorem insertDesc_filter (c : Candidate) (l : List Candidate) (n : Nat) :
    (insertDesc c l).filter (fun x => decide (candidateSize x = n)) =
      if candidateSize c = n then
        c :: l.filter (fun x => decide (candidateSize x = n))
      else l.filter (fun x => decide (candidateSize x = n)) := by
  induction l with
  | nil => by_cases h : candidateSize c = n <;> simp [insertDesc, h]
  | cons x xs ih =>
    simp only [insertDesc]
    by_cases h : candidateSize c < candidateSize x
    · rw [if_pos h]
      by_cases hc : candidateSize c = n
      · have hx : ¬ candidateSize x = n := by omega
        simp [List.filter_cons, hx, ih, hc]
      · by_cases hx : candidateSize x = n <;> simp [List.filter_cons, hx, ih, hc]
    · rw [if_neg h]
      by_cases hc : candidateSize c = n <;> simp [List.filter_cons, hc]

/-- Stability of the sort: each size class of the output lists its
candidates in the input enumeration order. -/
theorem sortDesc_filter (l : List Candidate) (n : Nat) :
    (sortDesc l).filter (fun x => decide (candidateSize x = n)) =
      l.filter (fun x => decide (candidateSize x = n)) := by
  induction l with
  | nil => simp [sortDesc]
  | cons c cs ih =>
    simp only [sortDesc]
    rw [insertDesc_filter]
    by_cases hc : candidateSize c = n <;> simp [List.filter_cons, hc, ih]

theorem sortDesc_eq_nil_iff (l : List Candidate) : sortDesc l = [] ↔ l = [] := by
  constructor
  · intro h
    have := (sortDesc_perm l).length_eq
    rw [h] at this
    exact List.length_eq_zero.mp this.symm
  · rintro rfl
    simp [sortDesc]

/-- The code path of `_prioritize_audio_urls` agrees with the
specification-side description for every pair of url lists and every
deterministic sizing oracle. -/
theorem prioritize_eq_specC3 (sz : String → Option Nat)
    (d s : List String) :
    prioritize_audio_urls d s (build_audio_url_candidates sz d s) =
      prioritizeSpecC3 sz d s := by
  set cands := build_audio_url_candidates sz d s with hcands
  by_cases hc : cands.isEmpty
  · have hnil : cands = [] := by simpa [List.isEmpty_iff] using hc
    rw [prioritize_audio_urls, if_pos hc, prioritizeSpecC3]
    rw [← hcands, hnil]
    simp [sortDesc, deduplicate_preserve_order, dedupAppend, List.filter_true]
  · rw [prioritize_audio_urls, if_neg hc, prioritizeSpecC3, ← hcands]
    have hnenil : sortDesc cands ≠ [] := by
      rw [Ne, sortDesc_eq_nil_iff]
      intro h
      rw [h] at hc
      simp at hc
    obtain ⟨y, ys, hy⟩ := List.exists_cons_of_ne_nil hnenil
    have hpriority :
        dedupAppend (((sortDesc cands).take 1).map candidateUrl)
            (((sortDesc cands).drop 1).map candidateUrl) =
          deduplicate_preserve_order ((sortDesc cands).map candidateUrl) := by
      rw [hy]
      simp [deduplicate_preserve_order, dedupAppend, dedupStep]
    show dedupAppend
        (dedupAppend (((sortDesc cands).take 1).map candidateUrl)
          (((sortDesc cands).drop 1).map candidateUrl))
        (merge_url_lists d s) = _
    rw [hpriority]
    exact dedupAppend_eq_filter _ _
      (nodup_dedupAppend [] _ List.nodup_nil)

/-- C3: for every pair of deduplicated non-empty download and streaming url
lists, `_prioritize_audio_urls` applied to the candidates built by
`_build_audio_url_candidates` returns the sized candidates stably sorted by
content length descending (so the single largest comes first), followed by
the remaining merged urls in caller order deduplicated against the urls
already placed; the sort is a permutation of the candidate list, is sorted
descending, and preserves within each size class the enumeration order, in
which download candidates come before streaming candidates. -/
theorem audio_url_priority_matches_spec (sz : String → Option Nat)
    (d s : List String) (_hd : d ≠ []) (_hs : s ≠ []) :
    prioritize_audio_urls d s (build_audio_url_candidates sz d s) =
        prioritizeSpecC3 sz d s ∧
      (sortDesc (build_audio_url_candidates sz d s)).Perm
        (build_audio_url_candidates sz d s) ∧
      (sortDesc (build_audio_url_candidates sz d s)).Sorted
        (fun a b => candidateSize b ≤ candidateSize a) ∧
      ∀ n, (sortDesc (build_audio_url_candidates sz d s)).filter
          (fun x => decide (candidateSize x = n)) =
        (build_audio_url_candidates sz d s).filter
          (fun x => decide (candidateSize x = n)) :=
  ⟨prioritize_eq_specC3 sz d s, sortDesc_perm _, sortDesc_sorted _,
    fun n => sortDesc_filter _ n⟩

/-- Witness for C3 at a concrete input: download urls with sizes 10 and 7,
one streaming url of size 10 tying with the first download url. -/
theorem audio_url_priority_matches_spec_witness :
    prioritize_audio_urls ["a", "x"] ["b"]
        (build_audio_url_candidates
          (fun u => if u = "a" then some 10 else if u = "b" then some 10
            else if u = "x" then some 7 else none) ["a", "x"] ["b"]) =
      prioritizeSpecC3
        (fun u => if u = "a" then some 10 else if u = "b" then some 10
          else if u = "x" then some 7 else none) ["a", "x"] ["b"] :=
  (audio_url_priority_matches_spec
    (fun u => if u = "a" then some 10 else if u = "b" then some 10
      else if u = "x" then some 7 else none)
    ["a", "x"] ["b"] (by decide) (by decide)).1

/-- C10: for all download and streaming url lists and any sized candidates
drawn from them, the prioritized output is a permutation of the
deduplicated union of the two input lists: no url is dropped and no
duplicate is introduced. -/
theorem prioritized_urls_perm_merged (d s : List String) (cands : List Candidate)
    (h : ∀ c ∈ cands, candidateUrl c ∈ d ++ s) :
    (prioritize_audio_urls d s cands).Perm (merge_url_lists d s) := by
  have hmnodup : (merge_url_lists d s).Nodup :=
    nodup_dedupAppend [] _ List.nodup_nil
  by_cases hc : cands.isEmpty
  · rw [prioritize_audio_urls, if_pos hc]
  · rw [prioritize_audio_urls, if_neg hc]
    show (dedupAppend
        (dedupAppend (((sortDesc cands).take 1).map candidateUrl)
          (((sortDesc cands).drop 1).map candidateUrl))
        (merge_url_lists d s)).Perm (merge_url_lists d s)
    have hbase : (((sortDesc cands).take 1).map candidateUrl).Nodup := by
      cases sortDesc cands <;> simp
    have hpnodup : (dedupAppend (((sortDesc cands).take 1).map candidateUrl)
        (((sortDesc cands).drop 1).map candidateUrl)).Nodup :=
      nodup_dedupAppend _ _ hbase
    have honodup := nodup_dedupAppend _ (merge_url_lists d s) hpnodup
    have hsortmem : ∀ u, u ∈ (sortDesc cands).map candidateUrl → u ∈ d ++ s := by
      intro u hu
      obtain ⟨c, hcmem, rfl⟩ := List.mem_map.mp hu
      exact h c ((sortDesc_perm cands).mem_iff.mp hcmem)
    refine (List.perm_ext_iff_of_nodup honodup hmnodup).mpr ?_
    intro u
    rw [mem_dedupAppend]
    constructor
    · rintro (hu | hu)
      · rw [mem_dedupAppend] at hu
        have humem : u ∈ (sortDesc cands).map candidateUrl := by
          rcases hu with hu | hu
          · obtain ⟨c, hcmem, rfl⟩ := List.mem_map.mp hu
            exact List.mem_map_of_mem _ (List.mem_of_mem_take hcmem)
          · obtain ⟨c, hcmem, rfl⟩ := List.mem_map.mp hu
            exact List.mem_map_of_mem _ (List.mem_of_mem_drop hcmem)
        rw [merge_url_lists, mem_dedupAppend]
        exact Or.inr (hsortmem u humem)
      · exact hu
    · exact fun hu => Or.inr hu

/-- Witness for C10 at a concrete input. -/
theorem prioritized_urls_perm_merged_witness :
    (prioritize_audio_urls ["a"] ["b"] [(UrlClass.download, "a", 5)]).Perm
      (merge_url_lists ["a"] ["b"]) :=
  prioritized_urls_perm_merged ["a"] ["b"] [(UrlClass.download, "a", 5)]
    (by decide)

/-! ## Audio file reconciliation (downloader.py 821-919, file_utils.py 144-189,
client.py 205-229)

The local filesystem is modelled as an association list from path to byte
content; the network is modelled by the outcome of the one HEAD request and
the one (possibly fallback-backed) GET of `_download_audio_to_file`, plus
two oracles saying whether the two `os.rename` calls succeed. -/

/-- File contents as a list of byte values. -/
abbrev Bytes := List Nat

/-- The filesystem: an association list from path to content. -/
abbrev FS := List (String × Bytes)

/-- Look up the content stored under a path. -/
def fsLookup (fs : FS) (p : String) : Option Bytes :=
  (fs.find? fun e => e.1 == p).map (·.2)

/-- Remove the entry stored under a path (no-op when absent). -/
def fsErase (fs : FS) (p : String) : FS :=
  fs.filter fun e => e.1 != p

/-- Write content under a path, replacing any previous entry. -/
def fsWrite (fs : FS) (p : String) (b : Bytes) : FS :=
  fsErase fs p ++ [(p, b)]

/-- `os.rename src dst`: move the content of `src` to `dst`, overwriting
`dst`; no-op when `src` is absent. -/
def fsRename (fs : FS) (src dst : String) : FS :=
  match fsLookup fs src with
  | none => fs
  | some b => fsWrite (fsErase fs src) dst b

theorem fsLookup_cons (e : String × Bytes) (es : FS) (q : String) :
    fsLookup (e :: es) q = if e.1 = q then some e.2 else fsLookup es q := by
  by_cases h : e.1 = q
  · rw [fsLookup, List.find?_cons_of_pos _ (by simpa using h)]
    simp [h]
  · rw [fsLookup, List.find?_cons_of_neg _ (by simpa using h), if_neg h]
    rfl

theorem fsErase_cons (e : String × Bytes) (es : FS) (p : String) :
    fsErase (e :: es) p =
      if e.1 = p then fsErase es p else e :: fsErase es p := by
  by_cases h : e.1 = p <;> simp [fsErase, List.filter_cons, h]

theorem fsLookup_fsErase (fs : FS) (p q : String) :
    fsLookup (fsErase fs p) q = if q = p then none else fsLookup fs q := by
  induction fs with
  | nil => simp [fsLookup, fsErase]
  | cons e es ih =>
    rw [fsErase_cons]
    by_cases hep : e.1 = p
    · rw [if_pos hep, ih, fsLookup_cons]
      by_cases hqp : q = p
      · simp [hqp]
      · have hne : ¬ e.1 = q := by rw [hep]; exact fun h => hqp h.symm
        simp [hqp, hne]
    · rw [if_neg hep, fsLookup_cons, fsLookup_cons]
      by_cases heq : e.1 = q
      · have hqp : ¬ q = p := fun h => hep (heq.trans h)
        rw [if_pos heq, if_neg hqp, if_pos heq]
      · rw [if_neg heq, ih]
        by_cases hqp : q = p <;> simp [hqp, heq]

theorem fsLookup_append_right (l : FS) (p q : String) (b : Bytes)
    (h : fsLookup l q = none) :
    fsLookup (l ++ [(p, b)]) q = if p = q then some b else none := by
  induction l with
  | nil =>
    rw [List.nil_append, fsLookup_cons]
    by_cases hpq : p = q <;> simp [hpq, fsLookup]
  | cons e es ih =>
    by_cases heq : e.1 = q
    · rw [fsLookup_cons, if_pos heq] at h
      exact absurd h (by simp)
    · rw [fsLookup_cons, if_neg heq] at h
      rw [List.cons_append, fsLookup_cons, if_neg heq]
      exact ih h

theorem fsLookup_append_left (l : FS) (p q : String) (b : Bytes)
    (h : ¬ p = q) :
    fsLookup (l ++ [(p, b)]) q = fsLookup l q := by
  induction l with
  | nil =>
    rw [List.nil_append, fsLookup_cons, if_neg h]
  | cons e es ih =>
    rw [List.cons_append, fsLookup_cons, fsLookup_cons, ih]

theorem fsLookup_fsWrite (fs : FS) (p q : String) (b : Bytes) :
    fsLookup (fsWrite fs p b) q = if q = p then some b else fsLookup fs q := by
  rw [fsWrite]
  by_cases hqp : q = p
  · subst hqp
    rw [fsLookup_append_right _ _ _ _ (by rw [fsLookup_fsErase]; simp),
      if_pos rfl, if_pos rfl]
  · rw [fsLookup_append_left _ _ _ _ (fun h => hqp h.symm), fsLookup_fsErase,
      if_neg hqp, if_neg hqp]

/-- `backup_file` (file_utils.py 144-165): rename `p` to `p ++ ".bak"`.
`renameOk` is the oracle for the `os.rename` call. -/
def backup_file (renameOk : Bool) (fs : FS) (p : String) : Bool × FS :=
  if (fsLookup fs p).isNone then (false, fs)
  else if renameOk then (true, fsRename fs p (p ++ ".bak"))
  else (false, fs)

/-- `restore_backup` (file_utils.py 168-189): rename `bak` back to `orig`. -/
def restore_backup (renameOk : Bool) (fs : FS) (bak orig : String) : Bool × FS :=
  if (fsLookup fs bak).isNone then (false, fs)
  else if renameOk then (true, fsRename fs bak orig)
  else (false, fs)

/-- Outcome of the HEAD request issued by `_check_file_availability`
(client.py 205-229): a 2xx response carries the optional content-length
header; 404, other HTTP errors and network errors are distinguished. -/
inductive HeadOutcome where
  | ok (contentLength : Option Nat)
  | notFound
  | httpError
  | netError
deriving DecidableEq, Repr

/-- `_check_file_availability`: on a 2xx response the missing header is
collapsed to 0 by `int(response.headers.get("content-length", 0))`; a 404
yields `(False, None)`; any other failure yields `(True, None)`. -/
def check_file_availability : HeadOutcome → Bool × Option Nat
  | .ok h => (true, some (h.getD 0))
  | .notFound => (false, none)
  | .httpError => (true, none)
  | .netError => (true, none)

/-- Python truthiness of the `int | None` value `expected_length`:
`None` and `0` are falsy. -/
def pyTruthy : Option Nat → Bool
  | none => false
  | some n => n != 0

/-- Environment of one `_save_audio_file` run: the HEAD outcome for the
preferred url, the overall result of `_download_audio_to_file` (primary GET
plus fallback, `none` when both fail or the body is a soft 404), and the
oracles for the two renames. -/
structure AudioEnv where
  headOutcome : HeadOutcome
  download : Option Bytes
  backupRenameOk : Bool
  restoreRenameOk : Bool
deriving DecidableEq, Repr

/-- Observable outcome of `_save_audio_file`: return value, final
filesystem, and whether HEAD / GET requests were issued. -/
structure SaveOutcome where
  success : Bool
  fs : FS
  headIssued : Bool
  getIssued : Bool
deriving DecidableEq, Repr

/-- The `should_download` tail of `_save_audio_file` (downloader.py
895-919): download, write on success; on failure remove any partial file,
then restore the backup when one exists, returning the restore result. -/
def downloadStep (env : AudioEnv) (fs : FS) (path : String)
    (headIssued : Bool) : SaveOutcome :=
  match env.download with
  | some content =>
      { success := true, fs := fsWrite fs path content,
        headIssued := headIssued, getIssued := true }
  | none =>
      let fs1 := fsErase fs path
      let bak := path ++ ".bak"
      if (fsLookup fs1 bak).isSome then
        let (ok, fs2) := restore_backup env.restoreRenameOk fs1 bak path
        { success := ok, fs := fs2, headIssued := headIssued, getIssued := true }
      else
        { success := false, fs := fs1, headIssued := headIssued, getIssued := true }

/-- `_save_audio_file` (downloader.py 821-919) for one audio asset at
`path`.  When the file exists, the HEAD-based reconciliation decides
between skip, keep, and backup-then-download; when it does not exist, the
download is attempted directly. -/
def save_audio_file (env : AudioEnv) (fs : FS) (path : String) : SaveOutcome :=
  match fsLookup fs path with
  | none => downloadStep env fs path false
  | some existing =>
    let avail := check_file_availability env.headOutcome
    if !avail.1 then
      { success := true, fs := fs, headIssued := true, getIssued := false }
    else if pyTruthy avail.2 then
      let expectedLength := avail.2.getD 0
      if existing.length = expectedLength then
        { success := true, fs := fs, headIssued := true, getIssued := false }
      else if expectedLength > existing.length then
        let (ok, fs1) := backup_file env.backupRenameOk fs path
        if !ok then
          { success := false, fs := fs1, headIssued := true, getIssued := false }
        else downloadStep env fs1 path true
      else
        { success := true, fs := fs, headIssued := true, getIssued := false }
    else
      let (ok, fs1) := backup_file env.backupRenameOk fs path
      if !ok then
        { success := false, fs := fs1, headIssued := true, getIssued := false }
      else downloadStep env fs1 path true

theorem path_ne_bak (path : String) : path ≠ path ++ ".bak" := by
  intro h
  have hlen := congrArg String.length h
  rw [String.length_append] at hlen
  have hfour : (".bak" : String).length = 4 := rfl
  omega

/-- Reduction of `_save_audio_file` on the backup-then-download path: the
file exists, HEAD reports a strictly larger content length, and the rename
to `.bak` succeeds. -/
theorem save_audio_file_backup_then_download (env : AudioEnv) (fs : FS)
    (path : String) (existing : Bytes) (el : Nat)
    (hfile : fsLookup fs path = some existing)
    (hhead : env.headOutcome = .ok (some el))
    (hgt : existing.length < el)
    (hok : env.backupRenameOk = true) :
    save_audio_file env fs path =
      downloadStep env (fsWrite (fsErase fs path) (path ++ ".bak") existing)
        path true := by
  have hel : el ≠ 0 := by omega
  have hne : existing.length ≠ el := by omega
  simp only [save_audio_file, hfile, hhead, check_file_availability,
    pyTruthy, Option.getD, backup_file, fsRename, hfile, hok]
  simp [hel, hne, hgt, Nat.lt_irrefl]

/-- Reduction of `_save_audio_file` when the rename to `.bak` fails: the
whole asset operation fails and the filesystem is untouched. -/
theorem save_audio_file_backup_fail (env : AudioEnv) (fs : FS)
    (path : String) (existing : Bytes) (el : Nat)
    (hfile : fsLookup fs path = some existing)
    (hhead : env.headOutcome = .ok (some el))
    (hgt : existing.length < el)
    (hok : env.backupRenameOk = false) :
    save_audio_file env fs path =
      { success := false, fs := fs, headIssued := true, getIssued := false } := by
  have hel : el ≠ 0 := by omega
  have hne : existing.length ≠ el := by omega
  simp only [save_audio_file, hfile, hhead, check_file_availability,
    pyTruthy, Option.getD, backup_file, hfile, hok]
  simp [hel, hne, hgt]

/-- `downloadStep` after a successful backup, when the download fails and
the restoring rename succeeds: the original bytes come back under the
original name and the `.bak` entry is gone. -/
theorem downloadStep_restore_ok (env : AudioEnv) (fs0 : FS) (path : String)
    (existing : Bytes)
    (hdl : env.download = none)
    (hrestore : env.restoreRenameOk = true) :
    downloadStep env (fsWrite (fsErase fs0 path) (path ++ ".bak") existing)
        path true =
      { success := true,
        fs := fsWrite
          (fsErase
            (fsErase (fsWrite (fsErase fs0 path) (path ++ ".bak") existing) path)
            (path ++ ".bak"))
          path existing,
        headIssued := true, getIssued := true } := by
  have hne := path_ne_bak path
  have hbak : fsLookup
      (fsErase (fsWrite (fsErase fs0 path) (path ++ ".bak") existing) path)
      (path ++ ".bak") = some existing := by
    rw [fsLookup_fsErase, if_neg (fun h => hne h.symm), fsLookup_fsWrite,
      if_pos rfl]
  simp only [downloadStep, hdl, restore_backup, hbak, fsRename, hrestore]
  simp

/-- `downloadStep` after a successful backup, when the download succeeds:
the new content sits under the original name and the `.bak` is left in
place. -/
theorem downloadStep_success (env : AudioEnv) (fs1 : FS) (path : String)
    (content : Bytes)
    (hdl : env.download = some content) :
    downloadStep env fs1 path true =
      { success := true, fs := fsWrite fs1 path content,
        headIssued := true, getIssued := true } := by
  simp [downloadStep, hdl]

/-- C1: when HEAD reports a content length strictly greater than the
existing size, the existing file is renamed to `.bak` before any write: if
that rename fails the operation fails with the filesystem untouched; if the
download then fails and the restoring rename succeeds, the original bytes
are back under the original name and no `.bak` entry remains; if the
download succeeds, the new bytes are under the original name and the
`.bak` entry still holds the original bytes. -/
theorem backup_safety (env : AudioEnv) (fs : FS) (path : String)
    (existing : Bytes) (el : Nat)
    (hfile : fsLookup fs path = some existing)
    (hhead : env.headOutcome = .ok (some el))
    (hgt : existing.length < el) :
    (env.backupRenameOk = false →
      save_audio_file env fs path =
        { success := false, fs := fs, headIssued := true, getIssued := false }) ∧
    (env.backupRenameOk = true → env.download = none →
        env.restoreRenameOk = true →
      fsLookup (save_audio_file env fs path).fs path = some existing ∧
      fsLookup (save_audio_file env fs path).fs (path ++ ".bak") = none) ∧
    (∀ content, env.backupRenameOk = true → env.download = some content →
      fsLookup (save_audio_file env fs path).fs path = some content ∧
      fsLookup (save_audio_file env fs path).fs (path ++ ".bak") = some existing) := by
  have hne := path_ne_bak path
  refine ⟨?_, ?_, ?_⟩
  · intro hok
    exact save_audio_file_backup_fail env fs path existing el hfile hhead hgt hok
  · intro hok hdl hrestore
    rw [save_audio_file_backup_then_download env fs path existing el hfile hhead hgt hok,
      downloadStep_restore_ok env fs path existing hdl hrestore]
    constructor
    · rw [fsLookup_fsWrite, if_pos rfl]
    · rw [fsLookup_fsWrite, if_neg (fun h => hne h.symm), fsLookup_fsErase,
        if_pos rfl]
  · intro content hok hdl
    rw [save_audio_file_backup_then_download env fs path existing el hfile hhead hgt hok,
      downloadStep_success env _ path content hdl]
    constructor
    · rw [fsLookup_fsWrite, if_pos rfl]
    · rw [fsLookup_fsWrite, if_neg (fun h => hne h.symm), fsLookup_fsWrite,
        if_pos rfl]

/-- Witness for C1: a 3-byte file, HEAD reporting 10 bytes, on each of the
three branches (rename failure, failed download with restore, successful
download). -/
theorem backup_safety_witness :
    fsLookup [("f.mp3", [1, 2, 3])] "f.mp3" = some [1, 2, 3] ∧
    (save_audio_file
        { headOutcome := .ok (some 10), download := none,
          backupRenameOk := false, restoreRenameOk := true }
        [("f.mp3", [1, 2, 3])] "f.mp3" =
      { success := false, fs := [("f.mp3", [1, 2, 3])],
        headIssued := true, getIssued := false }) := by
  refine ⟨by decide, ?_⟩
  exact (backup_safety
    { headOutcome := .ok (some 10), download := none,
      backupRenameOk := false, restoreRenameOk := true }
    [("f.mp3", [1, 2, 3])] "f.mp3" [1, 2, 3] 10
    (by decide) rfl (by decide)).1 rfl

/-- C2 is falsified by a reported content length of zero: the code collapses
a 0 content-length into the could-not-determine branch, so an existing
empty file whose HEAD reports an equal length of 0 is backed up and
re-downloaded instead of being skipped, and a GET is issued. -/
theorem skip_on_match_counterexample :
    (save_audio_file
        { headOutcome := .ok (some 0), download := some [1, 2, 3],
          backupRenameOk := true, restoreRenameOk := true }
        [("f.mp3", [])] "f.mp3").getIssued = true ∧
    fsLookup (save_audio_file
        { headOutcome := .ok (some 0), download := some [1, 2, 3],
          backupRenameOk := true, restoreRenameOk := true }
        [("f.mp3", [])] "f.mp3").fs "f.mp3" = some [1, 2, 3] := by
  constructor
  · rfl
  · rfl

/-- C2 amended: for an existing file, the skip guarantees hold whenever the
HEAD-reported content length is nonzero: equal length skips with no GET and
no change, a 404 keeps the file with no GET, and a strictly smaller nonzero
length keeps the file with no GET and no backup.  (A reported length of 0,
or a missing header, is treated as undeterminable and leads to
backup-then-redownload instead.) -/
theorem skip_on_match_amended (env : AudioEnv) (fs : FS) (path : String)
    (existing : Bytes)
    (hfile : fsLookup fs path = some existing) :
    (∀ el, env.headOutcome = .ok (some el) → el ≠ 0 → existing.length = el →
      save_audio_file env fs path =
        { success := true, fs := fs, headIssued := true, getIssued := false }) ∧
    (env.headOutcome = .notFound →
      save_audio_file env fs path =
        { success := true, fs := fs, headIssued := true, getIssued := false }) ∧
    (∀ el, env.headOutcome = .ok (some el) → el ≠ 0 → el < existing.length →
      save_audio_file env fs path =
        { success := true, fs := fs, headIssued := true, getIssued := false }) := by
  refine ⟨?_, ?_, ?_⟩
  · intro el hhead hel heq
    simp only [save_audio_file, hfile, hhead, check_file_availability,
      pyTruthy, Option.getD]
    simp [hel, heq]
  · intro hhead
    simp only [save_audio_file, hfile, hhead, check_file_availability]
    simp
  · intro el hhead hel hlt
    have hne : existing.length ≠ el := by omega
    have hngt : ¬ el > existing.length := by omega
    simp only [save_audio_file, hfile, hhead, check_file_availability,
      pyTruthy, Option.getD]
    simp [hel, hne, hngt]

/-- Witness for the amended C2: a 3-byte file whose HEAD reports 3 bytes is
kept untouched with no GET. -/
theorem skip_on_match_amended_witness :
    save_audio_file
        { headOutcome := .ok (some 3), download := some [9, 9],
          backupRenameOk := true, restoreRenameOk := true }
        [("f.mp3", [1, 2, 3])] "f.mp3" =
      { success := true, fs := [("f.mp3", [1, 2, 3])],
        headIssued := true, getIssued := false } :=
  (skip_on_match_amended
    { headOutcome := .ok (some 3), download := some [9, 9],
      backupRenameOk := true, restoreRenameOk := true }
    [("f.mp3", [1, 2, 3])] "f.mp3" [1, 2, 3] (by decide)).1
    3 rfl (by decide) (by decide)

theorem downloadStep_restore_fail (env : AudioEnv) (fs0 : FS) (path : String)
    (existing : Bytes)
    (hdl : env.download = none)
    (hrestore : env.restoreRenameOk = false) :
    (downloadStep env (fsWrite (fsErase fs0 path) (path ++ ".bak") existing)
        path true).success = false := by
  have hne := path_ne_bak path
  have hbak : fsLookup
      (fsErase (fsWrite (fsErase fs0 path) (path ++ ".bak") existing) path)
      (path ++ ".bak") = some existing := by
    rw [fsLookup_fsErase, if_neg (fun h => hne h.symm), fsLookup_fsWrite,
      if_pos rfl]
  simp only [downloadStep, hdl, restore_backup, hbak, hrestore]
  simp

/-- C9: on the backup-then-download path, a failed download followed by a
successful restore still counts as success for the asset operation; it
fails only when the restoring rename fails, or when no backup exists
(file initially absent and the download fails). -/
theorem restore_counts_as_success (env : AudioEnv) (fs : FS) (path : String)
    (existing : Bytes) (el : Nat)
    (hfile : fsLookup fs path = some existing)
    (hhead : env.headOutcome = .ok (some el))
    (hgt : existing.length < el)
    (hok : env.backupRenameOk = true)
    (hdl : env.download = none) :
    (env.restoreRenameOk = true →
      (save_audio_file env fs path).success = true) ∧
    (env.restoreRenameOk = false →
      (save_audio_file env fs path).success = false) ∧
    (∀ fs2 : FS, fsLookup fs2 path = none →
      fsLookup fs2 (path ++ ".bak") = none →
      (save_audio_file env fs2 path).success = false) := by
  have hne := path_ne_bak path
  refine ⟨?_, ?_, ?_⟩
  · intro hrestore
    rw [save_audio_file_backup_then_download env fs path existing el hfile hhead hgt hok,
      downloadStep_restore_ok env fs path existing hdl hrestore]
  · intro hrestore
    rw [save_audio_file_backup_then_download env fs path existing el hfile hhead hgt hok]
    exact downloadStep_restore_fail env fs path existing hdl hrestore
  · intro fs2 habsent hnobak
    have hbak2 : fsLookup (fsErase fs2 path) (path ++ ".bak") = none := by
      rw [fsLookup_fsErase, if_neg (fun h => hne h.symm), hnobak]
    simp only [save_audio_file, habsent, downloadStep, hdl, hbak2]
    simp

/-- Witness for C9: file of 3 bytes, HEAD reports 10, download fails,
restore succeeds: the operation reports success. -/
theorem restore_counts_as_success_witness :
    (save_audio_file
        { headOutcome := .ok (some 10), download := none,
          backupRenameOk := true, restoreRenameOk := true }
        [("f.mp3", [1, 2, 3])] "f.mp3").success = true :=
  (restore_counts_as_success
    { headOutcome := .ok (some 10), download := none,
      backupRenameOk := true, restoreRenameOk := true }
    [("f.mp3", [1, 2, 3])] "f.mp3" [1, 2, 3] 10
    (by decide) rfl (by decide) rfl rfl).1 rfl

/-! ## Quality deduplication (downloader.py 282-362)

`_compare_and_remove_files` works on a per-group mapping from audio
extension to file path (insertion order preserved, keys distinct by
construction of `_process_folder_quality`); the mutagen bitrate probe
`_get_audio_quality` is modelled as an oracle `quality : String -> Option Nat`.
The function below returns the list of paths that end up in
`files_to_remove` (deleted, or reported in dry-run mode). -/

/-- The audio extensions grouped by `_process_folder_quality`. -/
inductive AudioExt where
  | mp3
  | mp4
  | aac
  | m4a
deriving DecidableEq, Repr

/-- Whether an extension belongs to the AAC family `[".mp4", ".aac", ".m4a"]`. -/
def extIsAacFamily : AudioExt → Bool
  | .mp3 => false
  | _ => true

/-- One entry of `file_qualities`: extension key, path, determined bitrate. -/
structure QualityEntry where
  ext : AudioExt
  path : String
  bitrate : Nat
deriving DecidableEq, Repr

/-- The running `(best_file, best_bitrate)` pair. -/
structure BestState where
  bestFile : Option String
  bestBitrate : Nat
deriving DecidableEq, Repr

/-- Python truthiness of the `str | None` value `best_file`. -/
def pyStrTruthy : Option String → Bool
  | none => false
  | some s => s != ""

/-- Python `path.endswith(".mp3")`, computed on the character list so that
it reduces inside the kernel. -/
def endsWithDotMp3 (s : String) : Bool :=
  ['.', 'm', 'p', '3'].isSuffixOf s.data

/-- One iteration of the best-file selection loop (downloader.py 320-335). -/
def stepBest (b : BestState) (q : QualityEntry) : BestState :=
  match q.ext with
  | .mp4 | .aac | .m4a =>
    if q.bitrate ≥ 96 then
      if !pyStrTruthy b.bestFile || q.bitrate > b.bestBitrate ||
          (pyStrTruthy b.bestFile && endsWithDotMp3 (b.bestFile.getD "")) then
        { bestFile := some q.path, bestBitrate := q.bitrate }
      else b
    else b
  | .mp3 =>
    if !pyStrTruthy b.bestFile ||
        (pyStrTruthy b.bestFile && endsWithDotMp3 (b.bestFile.getD "") &&
          q.bitrate > b.bestBitrate) then
      { bestFile := some q.path, bestBitrate := q.bitrate }
    else b

/-- `file_qualities`: drop the files whose bitrate cannot be determined. -/
def fileQualities (quality : String → Option Nat)
    (files : List (AudioExt × String)) : List QualityEntry :=
  files.filterMap fun e => (quality e.2).map fun b => ⟨e.1, e.2, b⟩

/-- The removal condition of the loop at downloader.py 339-346, relative to
the computed best state. -/
def removalCond (fq : List QualityEntry) (best : BestState) (bp : String)
    (q : QualityEntry) : Bool :=
  q.path != bp &&
    ((q.ext == .mp3 && q.bitrate ≤ 128 && fq.any fun o => extIsAacFamily o.ext) ||
      q.bitrate < best.bestBitrate)

/-- `_compare_and_remove_files` (downloader.py 282-362), returning the list
of paths placed in `files_to_remove`. -/
def compare_and_remove_files (quality : String → Option Nat)
    (files : List (AudioExt × String)) : List String :=
  if files.length ≤ 1 then []
  else
    let fq := fileQualities quality files
    if fq.isEmpty then []
    else
      let best := fq.foldl stepBest { bestFile := none, bestBitrate := 0 }
      match best.bestFile with
      | none => []
      | some bp => (fq.filter (removalCond fq best bp)).map (·.path)

/-- C4 is falsified by an MP3 whose bitrate exceeds 128 kbps next to an
AAC file of 96 kbps: the AAC file wins the best-file selection, but the
removal loop only removes an MP3 when its bitrate is at most 128, so the
MP3 survives even though the claim says it is removed regardless of its
bitrate. -/
theorem quality_dedup_counterexample :
    compare_and_remove_files
        (fun p => if p = "a.mp3" then some 192
          else if p = "b.aac" then some 96 else none)
        [(.mp3, "a.mp3"), (.aac, "b.aac")] = [] ∧
    "a.mp3" ∉ compare_and_remove_files
        (fun p => if p = "a.mp3" then some 192
          else if p = "b.aac" then some 96 else none)
        [(.mp3, "a.mp3"), (.aac, "b.aac")] := by
  constructor
  · rfl
  · decide

/-- The best state computed by the selection loop of
`_compare_and_remove_files`. -/
def bestOf (fq : List QualityEntry) : BestState :=
  fq.foldl stepBest { bestFile := none, bestBitrate := 0 }

/-- Membership in the removal list, unfolded. -/
theorem mem_compare_and_remove (quality : String → Option Nat)
    (files : List (AudioExt × String)) (p : String) :
    p ∈ compare_and_remove_files quality files ↔
      (¬ files.length ≤ 1) ∧
      ∃ bp, (bestOf (fileQualities quality files)).bestFile = some bp ∧
        ∃ q ∈ fileQualities quality files,
          removalCond (fileQualities quality files)
            (bestOf (fileQualities quality files)) bp q = true ∧
          q.path = p := by
  rw [compare_and_remove_files]
  by_cases h1 : files.length ≤ 1
  · simp [h1]
  · rw [if_neg h1]
    by_cases h2 : (fileQualities quality files).isEmpty
    · have hfq : fileQualities quality files = [] := by
        simpa [List.isEmpty_iff] using h2
      simp only [h2, if_pos]
      simp [hfq, bestOf, h1]
    · rw [if_neg h2]
      cases hbf : ((fileQualities quality files).foldl stepBest
          { bestFile := none, bestBitrate := 0 }).bestFile with
      | none =>
        simp only [hbf]
        simp only [bestOf, hbf]
        simp [h1]
      | some bp =>
        simp only [hbf]
        simp only [bestOf, hbf]
        simp only [List.mem_map, List.mem_filter]
        constructor
        · rintro ⟨q, ⟨hq, hcond⟩, rfl⟩
          exact ⟨h1, bp, rfl, q, hq, hcond, rfl⟩
        · rintro ⟨_, bp2, hbp2, q, hq, hcond, rfl⟩
          rw [Option.some.injEq] at hbp2
          subst hbp2
          exact ⟨q, ⟨hq, hcond⟩, rfl⟩

/-- C4 amended: within a group, a file with undeterminable bitrate is never
removed; the winner itself is never removed; and when the group has more
than one file and a winner exists, a path is removed exactly when some
determinable entry carries it, it differs from the winner path, and either
it is an MP3 with bitrate at most 128 kbps while some AAC/MP4/M4A sibling
with determinable bitrate exists (regardless of that sibling's bitrate), or
its bitrate is strictly below the winner's.  In particular an MP3 with
bitrate above 128 kbps is removed only if its bitrate is below the
winner's, not merely because an AAC sibling of at least 96 kbps exists. -/
theorem quality_dedup_characterization (quality : String → Option Nat)
    (files : List (AudioExt × String)) :
    (∀ p, quality p = none → p ∉ compare_and_remove_files quality files) ∧
    (∀ bp, (bestOf (fileQualities quality files)).bestFile = some bp →
      bp ∉ compare_and_remove_files quality files) ∧
    (1 < files.length →
      ∀ bp, (bestOf (fileQualities quality files)).bestFile = some bp →
      ∀ p, p ∈ compare_and_remove_files quality files ↔
        ∃ q ∈ fileQualities quality files, q.path = p ∧ p ≠ bp ∧
          ((q.ext = .mp3 ∧ q.bitrate ≤ 128 ∧
              (∃ o ∈ fileQualities quality files, extIsAacFamily o.ext = true)) ∨
            q.bitrate < (bestOf (fileQualities quality files)).bestBitrate)) := by
  refine ⟨?_, ?_, ?_⟩
  · intro p hnone hmem
    rw [mem_compare_and_remove] at hmem
    obtain ⟨-, bp, -, q, hq, -, rfl⟩ := hmem
    obtain ⟨e, -, he⟩ := List.mem_filterMap.mp hq
    obtain ⟨b, hb, rfl⟩ := Option.map_eq_some'.mp he
    rw [hb] at hnone
    cases hnone
  · intro bp hbp hmem
    rw [mem_compare_and_remove] at hmem
    obtain ⟨-, bp2, hbp2, q, -, hcond, heq⟩ := hmem
    rw [hbp, Option.some.injEq] at hbp2
    rw [removalCond, Bool.and_eq_true, bne_iff_ne] at hcond
    exact hcond.1 (heq.trans hbp2)
  · intro hlen bp hbp p
    rw [mem_compare_and_remove]
    constructor
    · rintro ⟨-, bp2, hbp2, q, hq, hcond, rfl⟩
      rw [hbp] at hbp2
      rw [Option.some.injEq] at hbp2
      subst hbp2
      refine ⟨q, hq, rfl, ?_⟩
      rw [removalCond] at hcond
      simp only [Bool.and_eq_true, Bool.or_eq_true, bne_iff_ne, ne_eq,
        beq_iff_eq, decide_eq_true_eq, List.any_eq_true] at hcond
      refine ⟨hcond.1, ?_⟩
      rcases hcond.2 with ⟨⟨hmp3, hle⟩, o, ho, hfam⟩ | hlt
      · exact Or.inl ⟨hmp3, hle, o, ho, hfam⟩
      · exact Or.inr hlt
    · rintro ⟨q, hq, rfl, hne, hcond⟩
      refine ⟨by omega, bp, hbp, q, hq, ?_, rfl⟩
      rw [removalCond]
      simp only [Bool.and_eq_true, Bool.or_eq_true, bne_iff_ne, ne_eq,
        beq_iff_eq, decide_eq_true_eq, List.any_eq_true]
      refine ⟨hne, ?_⟩
      rcases hcond with ⟨hmp3, hle, o, ho, hfam⟩ | hlt
      · exact Or.inl ⟨⟨hmp3, hle⟩, o, ho, hfam⟩
      · exact Or.inr hlt

/-- Witness for the amended C4: an MP3 at 128 kbps next to an AAC at
96 kbps: the AAC wins and the MP3 is removed. -/
theorem quality_dedup_characterization_witness :
    "a.mp3" ∈ compare_and_remove_files
        (fun p => if p = "a.mp3" then some 128
          else if p = "b.aac" then some 96 else none)
        [(.mp3, "a.mp3"), (.aac, "b.aac")] :=
  ((quality_dedup_characterization
      (fun p => if p = "a.mp3" then some 128
        else if p = "b.aac" then some 96 else none)
      [(.mp3, "a.mp3"), (.aac, "b.aac")]).2.2 (by decide) "b.aac" (by decide)
    "a.mp3").mpr
    ⟨⟨.mp3, "a.mp3", 128⟩, by decide, rfl, by decide,
      Or.inl ⟨rfl, by decide, ⟨.aac, "b.aac", 96⟩, by decide, rfl⟩⟩

/-! ## Episode node processing and aggregation (downloader.py 551-705,
parallel.py 107-121)

`_process_single_node` is modelled up to the audio-url check; everything
after a non-empty url list (directory creation, images, metadata, audio)
is an opaque continuation `saveRest`, because claim C5 only concerns the
empty-url path, which returns before any of it runs.  The outcome records
the directories and files the node processing created and the warnings it
logged.  `_save_nodes` aggregates per-node boolean results into the
success/error counts and message; the parallel branch
(`parallel_download_nodes`, parallel.py 115-120) computes the identical
counts and message strings. -/

/-- One element of the `audios` array: either not a dict (skipped by the
`isinstance` check in `_collect_audio_urls`) or a dict whose `downloadUrl`
and `url` fields are modelled as strings, with the empty string standing
for both a missing key and an empty value (both falsy in Python). -/
inductive AudioItem where
  | notDict
  | entry (downloadUrl url : String)
deriving DecidableEq, Repr

/-- `_collect_audio_urls` (downloader.py 688-705). -/
def collect_audio_urls (audios : List AudioItem) : List String × List String :=
  audios.foldl
    (fun (acc : List String × List String) a =>
      match a with
      | .notDict => acc
      | .entry d u =>
        (if d ≠ "" then acc.1 ++ [d] else acc.1,
         if u ≠ "" then acc.2 ++ [u] else acc.2))
    ([], [])

/-- `_extract_audio_url` (downloader.py 662-686). -/
def extract_audio_url (sz : String → Option Nat)
    (audios : List AudioItem) : List String :=
  if audios.isEmpty then []
  else
    let collected := collect_audio_urls audios
    let downloadUrls := deduplicate_preserve_order collected.1
    let streamingUrls := deduplicate_preserve_order collected.2
    if downloadUrls.isEmpty && streamingUrls.isEmpty then []
    else if downloadUrls.isEmpty then streamingUrls
    else if streamingUrls.isEmpty then downloadUrls
    else prioritize_audio_urls downloadUrls streamingUrls
      (build_audio_url_candidates sz downloadUrls streamingUrls)

/-- The fields of one episode node used by `_process_single_node`. -/
structure EpisodeNode where
  id : String
  title : String
  audios : List AudioItem
  programSetId : String
  programSetTitle : String
deriving DecidableEq, Repr

/-- Observable outcome of processing one node: the boolean the caller
counts, the directories and files created, and the warnings logged. -/
structure NodeOutcome where
  success : Bool
  dirsCreated : List String
  filesWritten : List String
  warnings : List String
deriving DecidableEq, Repr

/-- `_process_single_node` (downloader.py 590-650) up to the audio-url
check: an empty candidate list logs the warning naming the node id and
returns `False` before any directory or file is touched; with a non-empty
list the rest of the pipeline runs as `saveRest`. -/
def process_single_node (sz : String → Option Nat)
    (saveRest : EpisodeNode → List String → NodeOutcome)
    (node : EpisodeNode) (index : Nat) : NodeOutcome :=
  let nodeId := if node.id ≠ "" then node.id else toString index
  let audioUrls := extract_audio_url sz node.audios
  if audioUrls.isEmpty then
    { success := false, dirsCreated := [], filesWritten := [],
      warnings := ["No audio URL found for node " ++ nodeId] }
  else saveRest node audioUrls

/-- Success/message pair of a `DownloadResult`. -/
structure DlResult where
  success : Bool
  message : String
deriving DecidableEq, Repr

/-- `_save_nodes` (downloader.py 551-588): count per-node results and build
the aggregate message (identical counting in the parallel branch). -/
def save_nodes (proc : EpisodeNode → Nat → NodeOutcome)
    (nodes : List EpisodeNode) : DlResult :=
  if nodes.isEmpty then { success := true, message := "No episodes to download" }
  else
    let outcomes := nodes.enum.map fun e => proc e.2 e.1
    let successCount := (outcomes.filter (·.success)).length
    let errorCount := outcomes.length - successCount
    if errorCount > 0 then
      { success := decide (0 < successCount),
        message := "Downloaded " ++ toString successCount ++
          " episodes with " ++ toString errorCount ++ " errors" }
    else
      { success := true,
        message := "Successfully downloaded " ++ toString successCount ++
          " episodes" }

/-- The continuation used in closed statements below; never reached on the
skip path. -/
def trivialSaveRest : EpisodeNode → List String → NodeOutcome :=
  fun _ _ =>
    { success := true, dirsCreated := [], filesWritten := [], warnings := [] }

/-- A single node whose processing returns `False` makes `_save_nodes`
report one error and a failed aggregate result. -/
theorem save_nodes_single_fail (proc : EpisodeNode → Nat → NodeOutcome)
    (node : EpisodeNode) (h : (proc node 0).success = false) :
    save_nodes proc [node] =
      { success := false, message := "Downloaded 0 episodes with 1 errors" } := by
  rw [save_nodes]
  simp only [List.isEmpty_cons, List.enum, List.enumFrom, List.map,
    List.filter_cons, List.filter_nil, h]
  norm_num
  rfl

/-- C5 is falsified in its not-an-error part: an episode whose only audio
entry has empty `downloadUrl` and empty `url` is skipped with no folder and
no files, but `_process_single_node` returns `False`, so `_save_nodes`
counts it as an error and reports a failed aggregate result. -/
theorem episode_skip_counterexample :
    (save_nodes
        (process_single_node (fun _ => none) trivialSaveRest)
        [{ id := "ep1", title := "T", audios := [.entry "" ""],
           programSetId := "ps1", programSetTitle := "P" }]) =
      { success := false, message := "Downloaded 0 episodes with 1 errors" } := by
  rfl

/-- C5 amended: an episode with an empty audio candidate list is skipped
before any directory or file is created and a warning naming the episode id
is logged (in particular an episode whose only audio entry has empty
`downloadUrl` and empty `url` yields an empty candidate list), but the skip
returns `False` and therefore increases the error count of the aggregate
download result instead of being neutral. -/
theorem episode_skip_amended (sz : String → Option Nat)
    (saveRest : EpisodeNode → List String → NodeOutcome)
    (node : EpisodeNode) (index : Nat)
    (h : extract_audio_url sz node.audios = []) :
    process_single_node sz saveRest node index =
        { success := false, dirsCreated := [], filesWritten := [],
          warnings := ["No audio URL found for node " ++
            (if node.id ≠ "" then node.id else toString index)] } ∧
      extract_audio_url sz [.entry "" ""] = [] ∧
      save_nodes (process_single_node sz saveRest) [node] =
        { success := false, message := "Downloaded 0 episodes with 1 errors" } := by
  refine ⟨?_, ?_, ?_⟩
  · simp only [process_single_node, h]
    simp
  · rfl
  · apply save_nodes_single_fail
    simp only [process_single_node, h]
    simp

/-- Witness for the amended C5 at the concrete scenario-C node. -/
theorem episode_skip_amended_witness :
    process_single_node (fun _ => none) trivialSaveRest
        { id := "ep1", title := "T", audios := [.entry "" ""],
          programSetId := "ps1", programSetTitle := "P" } 0 =
      { success := false, dirsCreated := [], filesWritten := [],
        warnings := ["No audio URL found for node ep1"] } := by
  have := (episode_skip_amended (fun _ => none) trivialSaveRest
    { id := "ep1", title := "T", audios := [.entry "" ""],
      programSetId := "ps1", programSetTitle := "P" } 0 (by rfl)).1
  simpa using this

/-! ## Collection download entry (downloader.py 447-478)

`_download_collection` with the network fetch results and the two save
subroutines abstracted: `saveNodes` stands for `_save_nodes` and
`saveCollectionMetadata` for `_save_collection_metadata`, each returning
the filesystem paths it would create.  On an empty first page the function
returns before either runs. -/

def download_collection {α : Type} (nodes : List α) (resourceId : String)
    (isEditorialCollection : Bool) (hasCollectionData : Bool)
    (saveNodes : List α → DlResult × List String)
    (saveCollectionMetadata : List α → List String) : DlResult × List String :=
  if nodes.isEmpty then
    ({ success := true,
       message := "No episodes found for " ++
         (if isEditorialCollection then "collection" else "program") ++
         " " ++ resourceId }, [])
  else
    let r := saveNodes nodes
    let metaEffects :=
      if hasCollectionData then saveCollectionMetadata nodes else []
    (r.1, r.2 ++ metaEffects)

/-- C8: when the API returns zero result nodes for the very first page, no
directory or file is created (no save subroutine runs) and the result is a
success whose message states that nothing was found. -/
theorem empty_collection_is_success {α : Type} (nodes : List α)
    (resourceId : String) (isEditorialCollection hasCollectionData : Bool)
    (saveNodes : List α → DlResult × List String)
    (saveCollectionMetadata : List α → List String)
    (h : nodes = []) :
    download_collection nodes resourceId isEditorialCollection
        hasCollectionData saveNodes saveCollectionMetadata =
      ({ success := true,
         message := "No episodes found for " ++
           (if isEditorialCollection then "collection" else "program") ++
           " " ++ resourceId }, []) := by
  subst h
  rfl

/-- Witness for C8 at a concrete empty program fetch. -/
theorem empty_collection_is_success_witness :
    download_collection ([] : List Nat) "12345" false true
        (fun _ => ({ success := false, message := "unused" }, ["dir"]))
        (fun _ => ["meta"]) =
      ({ success := true, message := "No episodes found for program 12345" },
        []) :=
  empty_collection_is_success [] "12345" false true
    (fun _ => ({ success := false, message := "unused" }, ["dir"]))
    (fun _ => ["meta"]) rfl

/-! ## Pagination (client.py 445-491)

`fetch_program_set_episodes` repeatedly queries the server with
`offset` and `count = min(24, remaining)`, appends the returned nodes,
advances the offset by the fixed page size 24, and stops when the
accumulation limit is reached, the page is empty, or `hasNextPage` is
false.  (The `if not result: break` guard for a missing GraphQL result
dict coincides with the empty-page break in this model, where the server
always answers with a page.)  The loop is written with explicit fuel; the
driver passes `limit + 1`, which always suffices because every continuing
iteration appends at least one node and the accumulator is capped at
`limit`.  The request log records each `(offset, count)` pair issued. -/

structure PageResult (α : Type) where
  nodes : List α
  hasNextPage : Bool

/-- The pagination loop body of `fetch_program_set_episodes`. -/
def fetchLoop {α : Type} (server : Nat → Nat → PageResult α) (limit : Nat) :
    Nat → Nat → List α → List (Nat × Nat) → List α × List (Nat × Nat)
  | 0, _, acc, log => (acc, log)
  | fuel + 1, offset, acc, log =>
    if limit - acc.length = 0 then (acc, log)
    else if (server offset (min 24 (limit - acc.length))).nodes.isEmpty then
      (acc, log ++ [(offset, min 24 (limit - acc.length))])
    else if (server offset (min 24 (limit - acc.length))).hasNextPage then
      fetchLoop server limit fuel (offset + 24)
        (acc ++ (server offset (min 24 (limit - acc.length))).nodes)
        (log ++ [(offset, min 24 (limit - acc.length))])
    else
      (acc ++ (server offset (min 24 (limit - acc.length))).nodes,
        log ++ [(offset, min 24 (limit - acc.length))])

/-- `fetch_program_set_episodes` (client.py 445-491), returning the node
list together with the request log. -/
def fetch_program_set_episodes {α : Type} (server : Nat → Nat → PageResult α)
    (limit : Nat) : List α × List (Nat × Nat) :=
  fetchLoop server limit (limit + 1) 0 [] []

/-- The claim-C6 server: `N` nodes split across pages, the has-next-page
flag true on every page but the last. -/
def pagedServer {α : Type} (all : List α) (offset count : Nat) : PageResult α :=
  { nodes := (all.drop offset).take count,
    hasNextPage := decide (offset + count < all.length) }

theorem fetchLoop_pagedServer {α : Type} (all : List α) (limit : Nat)
    (hNlim : all.length ≤ limit) :
    ∀ (fuel offset : Nat) (log : List (Nat × Nat)),
      offset < all.length → all.length - offset ≤ fuel →
      fetchLoop (pagedServer all) limit fuel offset (all.take offset) log =
        (all, log ++ (List.range ((all.length - offset + 23) / 24)).map
          (fun i => (offset + 24 * i, min 24 (limit - (offset + 24 * i))))) := by
  intro fuel
  induction fuel with
  | zero =>
    intro offset log hoff hfuel
    omega
  | succ f ih =>
    intro offset log hoff hfuel
    have hlen : (all.take offset).length = offset := by
      rw [List.length_take]
      omega
    rw [fetchLoop, hlen]
    rw [if_neg (by omega : ¬ limit - offset = 0)]
    have hnodelen :
        ((pagedServer all offset (min 24 (limit - offset))).nodes).length =
          min (min 24 (limit - offset)) (all.length - offset) := by
      simp [pagedServer, List.length_take, List.length_drop]
    have hnonempty :
        ((pagedServer all offset (min 24 (limit - offset))).nodes).isEmpty = false := by
      have hpos : 0 < ((pagedServer all offset (min 24 (limit - offset))).nodes).length := by
        rw [hnodelen]
        omega
      cases hcase : (pagedServer all offset (min 24 (limit - offset))).nodes with
      | nil => rw [hcase] at hpos; simp at hpos
      | cons a l => simp
    rw [hnonempty]
    rw [if_neg (by simp)]
    have hacc2 : all.take offset ++
          (pagedServer all offset (min 24 (limit - offset))).nodes =
        all.take (offset + min 24 (limit - offset)) := by
      rw [pagedServer, List.take_add]
    by_cases hnext : offset + min 24 (limit - offset) < all.length
    · have hflag : (pagedServer all offset (min 24 (limit - offset))).hasNextPage = true := by
        simp [pagedServer, hnext]
      rw [hflag, if_pos rfl, hacc2]
      have hcount : min 24 (limit - offset) = 24 := by
        rcases Nat.le_total 24 (limit - offset) with hle | hle
        · omega
        · exfalso
          have : min 24 (limit - offset) = limit - offset := by omega
          omega
      rw [hcount] at hnext ⊢
      have hrec := ih (offset + 24) (log ++ [(offset, 24)]) hnext (by omega)
      rw [hrec]
      rw [List.append_assoc]
      congr 1
      rw [List.singleton_append]
      have hdiv : (all.length - offset + 23) / 24 =
          (all.length - (offset + 24) + 23) / 24 + 1 := by
        omega
      have hhead : (offset, 24) =
          ((fun i => (offset + 24 * i, min 24 (limit - (offset + 24 * i)))) 0) := by
        simp [hcount]
      have htail : (fun i =>
            (offset + 24 + 24 * i, min 24 (limit - (offset + 24 + 24 * i)))) =
          ((fun i => (offset + 24 * i, min 24 (limit - (offset + 24 * i)))) ∘
            Nat.succ) := by
        funext i
        have h1 : offset + 24 * (i + 1) = offset + 24 + 24 * i := by ring
        simp [Function.comp, h1]
      rw [hdiv, List.range_succ_eq_map, List.map_cons, List.map_map, htail]
      simp [hcount]
    · have hflag : (pagedServer all offset (min 24 (limit - offset))).hasNextPage = false := by
        simp [pagedServer]
        omega
      rw [hflag]
      rw [if_neg (by simp)]
      rw [hacc2]
      have hall : all.take (offset + min 24 (limit - offset)) = all := by
        apply List.take_of_length_le
        omega
      rw [hall]
      have hdiv : (all.length - offset + 23) / 24 = 1 := by
        omega
      rw [hdiv]
      simp [List.range_succ]

/-- C6: for a server holding `N > 0` nodes split across pages of size 24
with the has-next-page flag true on all but the last page, and an
accumulation limit of at least `N`, the paginator returns exactly the `N`
nodes in server order (no deduplication) and issues exactly
`ceil(N / 24)` page requests at offsets `0, 24, 48, ...`. -/
theorem pagination_completeness {α : Type} (all : List α) (limit : Nat)
    (h0 : 0 < all.length) (hlim : all.length ≤ limit) :
    (fetch_program_set_episodes (pagedServer all) limit).1 = all ∧
    (fetch_program_set_episodes (pagedServer all) limit).2.map Prod.fst =
      (List.range ((all.length + 23) / 24)).map (fun i => 24 * i) ∧
    (fetch_program_set_episodes (pagedServer all) limit).2.length =
      (all.length + 23) / 24 := by
  have key := fetchLoop_pagedServer all limit hlim (limit + 1) 0 [] h0 (by omega)
  rw [show all.take 0 = [] from rfl] at key
  rw [fetch_program_set_episodes, key]
  refine ⟨rfl, ?_, ?_⟩
  · simp [List.map_map, Function.comp]
  · simp

/-- Witness for C6: three nodes, limit 1000: one request at offset 0
returning all three nodes. -/
theorem pagination_completeness_witness :
    (fetch_program_set_episodes (pagedServer [10, 20, 30]) 1000).1 =
        [10, 20, 30] ∧
      (fetch_program_set_episodes (pagedServer [10, 20, 30]) 1000).2.map
          Prod.fst = [0] := by
  refine ⟨(pagination_completeness [10, 20, 30] 1000 (by decide) (by decide)).1, ?_⟩
  have h := (pagination_completeness [10, 20, 30] 1000 (by decide) (by decide)).2.1
  simpa using h

/-! ## Resource resolution (client.py 384-443)

Python strings are embedded as `List Char`; `str.isdigit` and the regex
classes `\d` / `[a-zA-Z0-9]` are modelled over ASCII with `Char.isDigit`
and `Char.isAlpha`, which agree with Python on ASCII input.  The regex
anchor `$` (no MULTILINE) matches at the end of the string or just before
one final newline, and the models below carry that tolerance.  `urlparse`
is modelled for absolute `scheme://netloc/path` urls: the netloc is the
text between the first `://` and the next slash, the path the
remainder. -/

inductive ResourceType where
  | episode
  | program
  | collection
deriving DecidableEq, Repr

structure ResourceInfo where
  resourceType : ResourceType
  resourceId : List Char
deriving DecidableEq, Repr

/-- The characters of `"urn:ard:"`. -/
def urnTag : List Char := ['u', 'r', 'n', ':', 'a', 'r', 'd', ':']

/-- The characters of `"urn:ard:episode:"`. -/
def urnEpisodeTag : List Char := urnTag ++ ['e', 'p', 'i', 's', 'o', 'd', 'e', ':']

/-- The characters of `"urn:ard:page:"`. -/
def urnPageTag : List Char := urnTag ++ ['p', 'a', 'g', 'e', ':']

/-- The characters of `"urn:ard:show:"`. -/
def urnShowTag : List Char := urnTag ++ ['s', 'h', 'o', 'w', ':']

/-- Python `resource_id.isdigit()` (ASCII): non-empty and all digits. -/
def isPyDigit (s : List Char) : Bool := !s.isEmpty && s.all Char.isDigit

/-- The part of the string that `^[a-zA-Z0-9]+$` must span: since `$` also
matches just before one final newline, such a newline is not part of the
required alphanumeric run. -/
def alnumCore (s : List Char) : List Char :=
  if s.getLast? = some '\n' then s.dropLast else s

/-- The regex `re.match(r"^[a-zA-Z0-9]+$", s)`: one or more ASCII
alphanumerics spanning the string up to an optional final newline. -/
def isAlnumAscii (s : List Char) : Bool :=
  !(alnumCore s).isEmpty && (alnumCore s).all fun c => c.isAlpha || c.isDigit

/-- `determine_resource_type_from_id` (client.py 384-410). -/
def determine_resource_type_from_id (resourceId : List Char) :
    Option ResourceInfo :=
  if urnEpisodeTag.isPrefixOf resourceId then some ⟨.episode, resourceId⟩
  else if urnPageTag.isPrefixOf resourceId then some ⟨.collection, resourceId⟩
  else if urnShowTag.isPrefixOf resourceId then some ⟨.program, resourceId⟩
  else if urnTag.isPrefixOf resourceId then some ⟨.program, resourceId⟩
  else if isPyDigit resourceId then some ⟨.program, resourceId⟩
  else if isAlnumAscii resourceId then some ⟨.program, resourceId⟩
  else none

/-- Scan for the first `://` and return what follows. -/
def afterSchemeSep : List Char → Option (List Char)
  | [] => none
  | ':' :: '/' :: '/' :: rest => some rest
  | _ :: rest => afterSchemeSep rest

/-- Model of `urlparse(url)`, returning `(netloc, path)` for
`scheme://netloc/path` urls. -/
def netlocOf (url : List Char) : Option (List Char × List Char) :=
  (afterSchemeSep url).map fun rest =>
    (rest.takeWhile (fun c => c != '/'), rest.dropWhile (fun c => c != '/'))

/-- The path segment after the last slash (the regexes require a slash
right before the captured group). -/
def lastSegmentAfterSlash (u : List Char) : Option (List Char) :=
  if '/' ∈ u then some ((u.reverse.takeWhile (fun c => c != '/')).reverse)
  else none

/-- The group captured by `re.search(r"/(urn:ard:[^/]+)/?$", url)`.  The
match may end at one trailing slash, at the string end, or — via `$` — just
before one final newline that follows the optional slash.  A final newline
with no slash after the segment is itself matched by the greedy `[^/]+`
and so stays inside the captured group. -/
def urnSearchGroup (u : List Char) : Option (List Char) :=
  let core :=
    if u.getLast? = some '/' then u.dropLast
    else if u.getLast? = some '\n' ∧ u.dropLast.getLast? = some '/' then
      u.dropLast.dropLast
    else u
  match lastSegmentAfterSlash core with
  | none => none
  | some seg =>
    if urnTag.isPrefixOf seg && decide (8 < seg.length) then some seg
    else none

/-- The group captured by `re.search(r"/(\d+)/?$", url)`.  As above the
match tolerates one trailing slash and one final newline, but `\d` does not
match a newline, so a final newline is dropped before the digit run is
checked. -/
def digitsSearchGroup (u : List Char) : Option (List Char) :=
  let core :=
    if u.getLast? = some '/' then u.dropLast
    else if u.getLast? = some '\n' ∧ u.dropLast.getLast? = some '/' then
      u.dropLast.dropLast
    else if u.getLast? = some '\n' then u.dropLast
    else u
  match lastSegmentAfterSlash core with
  | none => none
  | some seg =>
    if !seg.isEmpty && seg.all Char.isDigit then some seg
    else none

/-- `parse_url` (client.py 412-443): validate netloc and path, then try the
trailing-URN regex `/(urn:ard:[^/]+)/?$` (the captured group must extend
`urn:ard:` by at least one character), then the trailing-number regex
`/(\d+)/?$`. -/
def parse_url (url : List Char) : Option ResourceInfo :=
  match netlocOf url with
  | none => none
  | some (netloc, path) =>
    if netloc.isEmpty || path.isEmpty then none
    else
      match urnSearchGroup url with
      | some g => determine_resource_type_from_id g
      | none =>
        match digitsSearchGroup url with
        | some seg => some ⟨.program, seg⟩
        | none => none

/-- Two prefixes that agree on `pre` but then diverge cannot both be
prefixes of the same list. -/
theorem isPrefixOf_append_clash : ∀ (pre : List Char) (a b : Char)
    (s t rid : List Char), a ≠ b →
    (pre ++ a :: s).isPrefixOf rid = true →
    (pre ++ b :: t).isPrefixOf rid = false := by
  intro pre
  induction pre with
  | nil =>
    intro a b s t rid hne h
    cases rid with
    | nil => simp [List.isPrefixOf] at h
    | cons r rs =>
      simp only [List.nil_append, List.isPrefixOf, Bool.and_eq_true,
        beq_iff_eq] at h
      obtain ⟨rfl, -⟩ := h
      have hbr : (b == a) = false := by
        rw [beq_eq_false_iff_ne]
        exact fun hba => hne hba.symm
      simp [List.isPrefixOf, hbr]
  | cons c cs ih =>
    intro a b s t rid hne h
    cases rid with
    | nil => simp [List.isPrefixOf] at h
    | cons r rs =>
      simp only [List.cons_append, List.isPrefixOf, Bool.and_eq_true,
        beq_iff_eq, List.append_eq] at h
      obtain ⟨rfl, h2⟩ := h
      simp only [List.cons_append, List.isPrefixOf, List.append_eq]
      rw [ih a b s t rs hne h2]
      simp

theorem page_not_episode (rid : List Char)
    (h : urnPageTag.isPrefixOf rid = true) :
    urnEpisodeTag.isPrefixOf rid = false := by
  rw [urnPageTag] at h
  rw [urnEpisodeTag]
  exact isPrefixOf_append_clash urnTag 'p' 'e' _ _ rid (by decide) h

theorem show_not_episode (rid : List Char)
    (h : urnShowTag.isPrefixOf rid = true) :
    urnEpisodeTag.isPrefixOf rid = false := by
  rw [urnShowTag] at h
  rw [urnEpisodeTag]
  exact isPrefixOf_append_clash urnTag 's' 'e' _ _ rid (by decide) h

theorem show_not_page (rid : List Char)
    (h : urnShowTag.isPrefixOf rid = true) :
    urnPageTag.isPrefixOf rid = false := by
  rw [urnShowTag] at h
  rw [urnPageTag]
  exact isPrefixOf_append_clash urnTag 's' 'p' _ _ rid (by decide) h

theorem urnTag_of_longer (rid rest : List Char)
    (h : (urnTag ++ rest).isPrefixOf rid = true) :
    urnTag.isPrefixOf rid = true := by
  rw [ List.isPrefixOf_iff_prefix] at h ⊢
  exact (List.prefix_append urnTag rest).trans h

theorem mem_of_isPrefixOf (l rid : List Char) (c : Char)
    (hc : c ∈ l) (h : l.isPrefixOf rid = true) : c ∈ rid := by
  rw [ List.isPrefixOf_iff_prefix] at h
  exact h.subset hc

theorem bool_eq_false_of_ne_true {b : Bool} (h : ¬ b = true) : b = false := by
  cases b
  · rfl
  · exact absurd rfl h

theorem urn_long_false (rid rest : List Char)
    (hurn : urnTag.isPrefixOf rid = false) :
    (urnTag ++ rest).isPrefixOf rid = false := by
  by_cases hx : (urnTag ++ rest).isPrefixOf rid = true
  · rw [urnTag_of_longer rid rest hx] at hurn
    simp at hurn
  · exact bool_eq_false_of_ne_true hx

theorem urnTag_not_prefixOf_digits (rid : List Char)
    (hall : rid.all Char.isDigit = true) :
    urnTag.isPrefixOf rid = false := by
  by_cases hpre : urnTag.isPrefixOf rid = true
  · exfalso
    have hu : 'u' ∈ rid := mem_of_isPrefixOf urnTag rid 'u' (by decide) hpre
    have := List.all_eq_true.mp hall 'u' hu
    simp at this
  · exact bool_eq_false_of_ne_true hpre

/-- A string with the `urn:ard:` structure never matches the alphanumeric
regex: the colon survives the one-newline tolerance of `$`. -/
theorem isAlnumAscii_urn_false (t : List Char) :
    isAlnumAscii (urnTag ++ t) = false := by
  have key : ∀ u : List Char,
      ((urnTag ++ u).all fun c => c.isAlpha || c.isDigit) = false := by
    intro u
    apply bool_eq_false_of_ne_true
    intro hall
    have hcolon : (':' : Char) ∈ urnTag ++ u :=
      List.mem_append_left _ (by decide)
    have := List.all_eq_true.mp hall ':' hcolon
    simp at this
  rw [isAlnumAscii, alnumCore]
  by_cases hnl : (urnTag ++ t).getLast? = some '\n'
  · have ht : t ≠ [] := by
      intro h0
      rw [h0, List.append_nil] at hnl
      exact absurd hnl (by decide)
    rw [if_pos hnl, List.dropLast_append_of_ne_nil _ ht, key t.dropLast,
      Bool.and_false]
  · rw [if_neg hnl, key t, Bool.and_false]

theorem urnTag_not_prefixOf_alnum (rid : List Char)
    (h : isAlnumAscii rid = true) :
    urnTag.isPrefixOf rid = false := by
  by_cases hpre : urnTag.isPrefixOf rid = true
  · exfalso
    rw [ List.isPrefixOf_iff_prefix] at hpre
    obtain ⟨t, rfl⟩ := hpre
    rw [isAlnumAscii_urn_false t] at h
    simp at h
  · exact bool_eq_false_of_ne_true hpre

/-- C7 amended: resolution is total on the documented input classes with
the documented result type (episode / collection / program URNs, other
URNs, purely numeric ids, alphanumeric ids — where the alphanumeric regex
tolerates one final newline via `$`), resolution fails on every input with
neither a `urn:ard:` structure nor alphanumeric-up-to-one-final-newline
shape, the concrete url of scenario A resolves to the episode URN, and a
valid url whose trailing-number regex captures a digit group resolves to a
program named by that group. -/
theorem resolver_totality :
    (∀ rid, urnEpisodeTag.isPrefixOf rid = true →
      determine_resource_type_from_id rid = some ⟨.episode, rid⟩) ∧
    (∀ rid, urnPageTag.isPrefixOf rid = true →
      determine_resource_type_from_id rid = some ⟨.collection, rid⟩) ∧
    (∀ rid, urnShowTag.isPrefixOf rid = true →
      determine_resource_type_from_id rid = some ⟨.program, rid⟩) ∧
    (∀ rid, urnTag.isPrefixOf rid = true →
      urnEpisodeTag.isPrefixOf rid = false →
      urnPageTag.isPrefixOf rid = false →
      urnShowTag.isPrefixOf rid = false →
      determine_resource_type_from_id rid = some ⟨.program, rid⟩) ∧
    (∀ rid, isPyDigit rid = true →
      determine_resource_type_from_id rid = some ⟨.program, rid⟩) ∧
    (∀ rid, isAlnumAscii rid = true →
      determine_resource_type_from_id rid = some ⟨.program, rid⟩) ∧
    (∀ rid, urnTag.isPrefixOf rid = false → isAlnumAscii rid = false →
      determine_resource_type_from_id rid = none) ∧
    parse_url ("https://example.org/folge/x/urn:ard:episode:999/".toList) =
      some ⟨.episode, "urn:ard:episode:999".toList⟩ ∧
    (∀ url netloc path seg, netlocOf url = some (netloc, path) →
      netloc.isEmpty = false → path.isEmpty = false →
      urnSearchGroup url = none →
      digitsSearchGroup url = some seg →
      parse_url url = some ⟨.program, seg⟩) := by
  refine ⟨?_, ?_, ?_, ?_, ?_, ?_, ?_, ?_, ?_⟩
  · intro rid h
    simp [determine_resource_type_from_id, h]
  · intro rid h
    simp [determine_resource_type_from_id, h, page_not_episode rid h]
  · intro rid h
    simp [determine_resource_type_from_id, h, show_not_episode rid h,
      show_not_page rid h]
  · intro rid h he hp hs
    simp [determine_resource_type_from_id, h, he, hp, hs]
  · intro rid h
    have hall : rid.all Char.isDigit = true := (Bool.and_eq_true _ _ |>.mp h).2
    have hurn := urnTag_not_prefixOf_digits rid hall
    have he : urnEpisodeTag.isPrefixOf rid = false := by
      rw [urnEpisodeTag]
      exact urn_long_false rid _ hurn
    have hp : urnPageTag.isPrefixOf rid = false := by
      rw [urnPageTag]
      exact urn_long_false rid _ hurn
    have hs : urnShowTag.isPrefixOf rid = false := by
      rw [urnShowTag]
      exact urn_long_false rid _ hurn
    simp [determine_resource_type_from_id, he, hp, hs, hurn, h]
  · intro rid h
    have hurn := urnTag_not_prefixOf_alnum rid h
    have he : urnEpisodeTag.isPrefixOf rid = false := by
      rw [urnEpisodeTag]
      exact urn_long_false rid _ hurn
    have hp : urnPageTag.isPrefixOf rid = false := by
      rw [urnPageTag]
      exact urn_long_false rid _ hurn
    have hs : urnShowTag.isPrefixOf rid = false := by
      rw [urnShowTag]
      exact urn_long_false rid _ hurn
    by_cases hd : isPyDigit rid = true
    · simp [determine_resource_type_from_id, he, hp, hs, hurn, hd]
    · simp [determine_resource_type_from_id, he, hp, hs, hurn,
        (by simpa using hd : isPyDigit rid = false), h]
  · intro rid hurn halnum
    have he : urnEpisodeTag.isPrefixOf rid = false := by
      rw [urnEpisodeTag]
      exact urn_long_false rid _ hurn
    have hp : urnPageTag.isPrefixOf rid = false := by
      rw [urnPageTag]
      exact urn_long_false rid _ hurn
    have hs : urnShowTag.isPrefixOf rid = false := by
      rw [urnShowTag]
      exact urn_long_false rid _ hurn
    have hd : isPyDigit rid = false := by
      apply bool_eq_false_of_ne_true
      intro hd2
      obtain ⟨hne, hall⟩ := Bool.and_eq_true _ _ |>.mp hd2
      have hnl : ¬ rid.getLast? = some '\n' := by
        intro hx
        have hmem : '\n' ∈ rid := List.mem_of_mem_getLast? hx
        have := List.all_eq_true.mp hall '\n' hmem
        simp at this
      have : isAlnumAscii rid = true := by
        rw [isAlnumAscii, alnumCore, if_neg hnl, Bool.and_eq_true]
        refine ⟨hne, ?_⟩
        rw [List.all_eq_true] at hall ⊢
        intro c hc
        simp [hall c hc]
      rw [this] at halnum
      simp at halnum
    simp [determine_resource_type_from_id, he, hp, hs, hurn, hd, halnum]
  · decide
  · intro url netloc path seg hnet hne hpe hurnnone hdig
    simp only [parse_url, hnet, hurnnone, hdig]
    rw [if_neg (by simp [hne, hpe])]

/-- C7 is falsified by a trailing newline: Python's `$` anchor (no
MULTILINE) matches just before one final newline, so the source resolves
`"abc\n"` — an input containing a disallowed character with no URN or
numeric structure — to a program via `re.match(r"^[a-zA-Z0-9]+$", ...)`,
where the claim says resolution fails; likewise a url whose numeric
trailing segment is followed by a newline still resolves. -/
theorem resolver_newline_counterexample :
    determine_resource_type_from_id ("abc\n".toList) =
        some ⟨.program, "abc\n".toList⟩ ∧
      parse_url ("https://example.org/123\n".toList) =
        some ⟨.program, "123".toList⟩ := by
  constructor
  · decide
  · decide

/-- Witness for C7: the scenario-A url together with a urn episode id and
a numeric id. -/
theorem resolver_totality_witness :
    determine_resource_type_from_id ("urn:ard:episode:999".toList) =
        some ⟨.episode, "urn:ard:episode:999".toList⟩ ∧
      determine_resource_type_from_id ("12345".toList) =
        some ⟨.program, "12345".toList⟩ :=
  ⟨resolver_totality.1 _ (by decide),
    (resolver_totality.2.2.2.2.1) _ (by decide)⟩

end Audiothek
